import Mathlib

/-!
Verification of the scrolls chain-indexer slice: the MongoDB storage sink
(`src/storage/mongo.rs`), the chain-sync start helper (`src/sources/utils.rs`)
and three reducers (`transaction_size_by_script.rs`, `supply_by_asset.rs`,
`address_by_asset.rs`), shallowly embedded in Lean 4.
-/

namespace Scrolls

/-! ## Hex encoding helpers (`hex::encode`, `hex::decode`) -/

/-- Lowercase hex digit for a nibble, as produced by `hex::encode`. -/
def hexDigit (n : Nat) : Char :=
  if n < 10 then Char.ofNat (48 + n) else Char.ofNat (87 + n)

/-- Lowercase hex encoding of a byte sequence (`hex::encode`). -/
def hexEncode (bs : List Nat) : String :=
  String.mk (bs.foldr (fun b acc => hexDigit (b / 16 % 16) :: hexDigit (b % 16) :: acc) [])

/-- Value of one hex character, accepting both cases (`hex::decode`). -/
def hexVal (c : Char) : Option Nat :=
  if 48 ≤ c.toNat ∧ c.toNat ≤ 57 then some (c.toNat - 48)
  else if 97 ≤ c.toNat ∧ c.toNat ≤ 102 then some (c.toNat - 87)
  else if 65 ≤ c.toNat ∧ c.toNat ≤ 70 then some (c.toNat - 55)
  else none

/-- Decode a list of hex characters two at a time (`hex::decode`). -/
def hexDecodeChars : List Char → Option (List Nat)
  | [] => some []
  | [_] => none
  | c1 :: c2 :: rest =>
    match hexVal c1, hexVal c2, hexDecodeChars rest with
    | some h, some l, some bs => some ((h * 16 + l) :: bs)
    | _, _, _ => none

/-- Decode a hex string into bytes (`hex::decode`). -/
def hexDecode (s : String) : Option (List Nat) :=
  hexDecodeChars s.data

/-- Interpretation of a Rust `as i64` cast applied to an unsigned value,
used by the sink for `ts as i64` and `tx_len as i64`. -/
def castToI64 (n : Nat) : Int :=
  if n % 2 ^ 64 < 2 ^ 63 then ((n % 2 ^ 64 : Nat) : Int)
  else ((n % 2 ^ 64 : Nat) : Int) - 2 ^ 64

/-- Equality of `Except` results is decidable when both components are. -/
instance exceptDecEq {ε α : Type} [DecidableEq ε] [DecidableEq α] : DecidableEq (Except ε α)
  | .ok a, .ok b =>
    if h : a = b then .isTrue (by rw [h]) else .isFalse (by simp [h])
  | .ok _, .error _ => .isFalse (by simp)
  | .error _, .ok _ => .isFalse (by simp)
  | .error e, .error f =>
    if h : e = f then .isTrue (by rw [h]) else .isFalse (by simp [h])

/-! ## Chain points and cursor encoding -/

/-- A chain point: slot number plus block hash bytes (pallas `Point::Specific`).
The sources in scope only ever build and persist specific points. -/
structure Point where
  slot : Nat
  hash : List Nat
  deriving DecidableEq, Repr

/-- Modelled from the spec: `crosscut::PointArg` (not under `src/`), the
string-encoded form of a `Point`; the cursor record stores
`"slot,hex-hash"` under the cursor key. -/
structure PointArg where
  slot : Nat
  hashHex : String
  deriving DecidableEq, Repr

/-- Render a `PointArg` the way `PointArg::to_string` does: `"slot,hex-hash"`. -/
def PointArg.render (pa : PointArg) : String :=
  toString pa.slot ++ "," ++ pa.hashHex

/-- Modelled from the spec: `PointArg::from(point)` hex-encodes the hash. -/
def PointArg.ofPoint (p : Point) : PointArg :=
  ⟨p.slot, hexEncode p.hash⟩

/-- The error type of the crate (`crate::Error`, not under `src/`), reduced to
the constructors the embedded code paths use. -/
inductive Error where
  | storageError (msg : String)
  | ouroboros (msg : String)
  | message (msg : String)
  deriving DecidableEq, Repr

/-- Modelled from the spec: `PointArg::try_into() : Result<Point>` decodes the
hex hash; a parse failure is a fatal error. -/
def PointArg.tryIntoPoint (pa : PointArg) : Except Error Point :=
  match hexDecode pa.hashHex with
  | some bs => .ok ⟨pa.slot, bs⟩
  | none => .error (.message "can't parse point hash hex value")

/-! ## CRDT command algebra (`model::CRDTCommand`) -/

/-- Opaque stand-in for an external `serde_json` value; the sink round-trips
it without inspecting it, so only its identity matters here. -/
structure JsonValue where
  raw : String
  deriving DecidableEq, Repr

/-- Modelled from the spec: `model::Value` (not under `src/`), the payload
vocabulary of §4.2: UTF-8 string, big integer, opaque bytes, structured JSON. -/
inductive Value where
  | string (s : String)
  | bigInt (n : Int)
  | cbor (b : List Nat)
  | json (j : JsonValue)
  deriving DecidableEq, Repr

/-- Modelled from the spec: `model::CRDTCommand` (not under `src/`); the closed
command set of §4.2, with payload types read off the sink's match arms. -/
inductive CRDTCommand where
  | BlockStarting (p : Point)
  | GrowOnlySetAdd (key : String) (v : Value)
  | TwoPhaseSetAdd (key : String) (v : Value)
  | TwoPhaseSetRemove (key : String) (v : Value)
  | SetAdd (key : String) (v : Value)
  | SetRemove (key : String) (v : Value)
  | LastWriteWins (key : String) (v : Value) (ts : Nat)
  | SortedSetAdd (key : String) (member : String) (delta : Int)
  | SortedSetRemove (key : String) (member : String) (delta : Int)
  | AnyWriteWins (key : String) (v : Value)
  | PNCounter (key : String) (delta : Int)
  | BlockFinished (p : Point)
  deriving DecidableEq, Repr

/-! ## The MongoDB sink (`src/storage/mongo.rs`)

The sink stores one document per `_id`.  BSON values reaching documents are
exactly the image of `value_to_bson`, which we take as the BSON type. -/

/-- Image of `value_to_bson`: three arms produce `Bson::String`, the JSON arm
produces a `Bson::Document` wrapping the JSON payload. -/
inductive Bson where
  | str (s : String)
  | jsonDoc (j : JsonValue)
  deriving DecidableEq, Repr

/-- The sink's value encoding (`value_to_bson` in `mongo.rs`). -/
def value_to_bson : Value → Bson
  | .string s => .str s
  | .bigInt n => .str (toString n)
  | .cbor b => .str (hexEncode b)
  | .json j => .jsonDoc j

/-- One MongoDB document as the sink shapes it: the `values` array used as a
set (`$addToSet` / `$pull`), the `tombstones` array, the `value`,
`timestamp` and `point` scalar fields, the `scores.<member>` counters and
the `counter` field. -/
structure MongoDoc where
  values : Finset Bson
  tombstones : Finset Bson
  value : Option Bson
  timestamp : Option Int
  scores : String → Int
  counter : Int
  point : Option String

/-- The document some `_id` maps to before any write touches it.  A missing
document and a default document are indistinguishable through the update
operators the sink uses, so the store is modelled as a total map. -/
def emptyDoc : MongoDoc :=
  { values := ∅, tombstones := ∅, value := none, timestamp := none,
    scores := fun _ => 0, counter := 0, point := none }

/-- Sink store state: one document per `_id`. -/
def MongoState := String → MongoDoc

/-- The fresh store: every `_id` still holds the default document. -/
def freshState : MongoState := fun _ => emptyDoc

/-- The update payload of one `update_one` call issued by the sink's `work`,
one constructor per distinct update document in `mongo.rs`. -/
inductive UpdateSpec where
  | addToSetValues (v : Bson)
  | addToSetTombstones (v : Bson)
  | pullValues (v : Bson)
  | setValueTs (v : Bson) (ts : Int)
  | setValue (v : Bson)
  | incScore (member : String) (delta : Int)
  | incCounter (delta : Int)
  | setPoint (pointStr : String)
  deriving DecidableEq, Repr

/-- One `update_one` call: target `_id`, update document, upsert flag. -/
structure MongoUpdate where
  docId : String
  spec : UpdateSpec
  upsert : Bool
  deriving DecidableEq, Repr

/-- The write `Worker::work` issues for a command, given the configured cursor
key (`config.cursor_key()`); `BlockStarting` issues none. -/
def cmdUpdate (cursorKey : String) : CRDTCommand → Option MongoUpdate
  | .BlockStarting _ => none
  | .GrowOnlySetAdd k v => some ⟨k, .addToSetValues (value_to_bson v), true⟩
  | .TwoPhaseSetAdd k v => some ⟨k, .addToSetValues (value_to_bson v), true⟩
  | .TwoPhaseSetRemove k v => some ⟨k ++ ".ts", .addToSetTombstones (value_to_bson v), true⟩
  | .SetAdd k v => some ⟨k, .addToSetValues (value_to_bson v), true⟩
  | .SetRemove k v => some ⟨k, .pullValues (value_to_bson v), false⟩
  | .LastWriteWins k v ts => some ⟨k, .setValueTs (value_to_bson v) (castToI64 ts), true⟩
  | .SortedSetAdd k m d => some ⟨k, .incScore m d, true⟩
  | .SortedSetRemove k m d => some ⟨k, .incScore m d, true⟩
  | .AnyWriteWins k v => some ⟨k, .setValue (value_to_bson v), true⟩
  | .PNCounter k d => some ⟨k, .incCounter d, true⟩
  | .BlockFinished p => some ⟨cursorKey, .setPoint (PointArg.render (PointArg.ofPoint p)), true⟩

/-- Effect of one update document on the targeted document. -/
def applySpec (u : UpdateSpec) (d : MongoDoc) : MongoDoc :=
  match u with
  | .addToSetValues v => { d with values := insert v d.values }
  | .addToSetTombstones v => { d with tombstones := insert v d.tombstones }
  | .pullValues v => { d with values := d.values.erase v }
  | .setValueTs v ts => { d with value := some v, timestamp := some ts }
  | .setValue v => { d with value := some v }
  | .incScore m delta =>
    { d with scores := fun m2 => if m2 = m then d.scores m2 + delta else d.scores m2 }
  | .incCounter delta => { d with counter := d.counter + delta }
  | .setPoint s => { d with point := some s }

/-- Effect of one `update_one` call on the store.  `$pull` is issued without
upsert, but pulling from the default (empty) document is a no-op either
way, so the total-map model needs no upsert distinction. -/
def applyUpdate (u : MongoUpdate) (s : MongoState) : MongoState :=
  fun k => if k = u.docId then applySpec u.spec (s k) else s k

/-- Effect of one command on the store, as `Worker::work` applies it. -/
def applyCmd (cursorKey : String) (c : CRDTCommand) (s : MongoState) : MongoState :=
  match cmdUpdate cursorKey c with
  | none => s
  | some u => applyUpdate u s

/-- Effect of a command sequence delivered in order to the sink. -/
def applyCmds (cursorKey : String) : List CRDTCommand → MongoState → MongoState
  | [], s => s
  | c :: cs, s => applyCmds cursorKey cs (applyCmd cursorKey c s)

/-- Combine an optional overwrite with a current optional value: a write wins,
otherwise the current value stays. -/
def owrite (w : Option β) (cur : Option β) : Option β :=
  match w with
  | some b => some b
  | none => cur

/-- Combine an optional membership decision with a current membership fact. -/
def pwrite (w : Option Bool) (cur : Prop) : Prop :=
  match w with
  | some b => b = true
  | none => cur

/-- Rightmost command with an effect under `f`, later commands taking
precedence. -/
def lastWrite (f : CRDTCommand → Option β) : List CRDTCommand → Option β
  | [] => none
  | c :: cs => owrite (lastWrite f cs) (f c)

/-- Sum of per-command contributions under `g`. -/
def sumOf (g : CRDTCommand → Int) : List CRDTCommand → Int
  | [] => 0
  | c :: cs => g c + sumOf g cs

/-- How one command settles membership of `x` in the `values` array of the
document at `k`: `some true` inserts it, `some false` pulls it, `none`
leaves it alone. -/
def touchValues (k : String) (x : Bson) : CRDTCommand → Option Bool
  | .GrowOnlySetAdd k2 v => if k = k2 ∧ x = value_to_bson v then some true else none
  | .TwoPhaseSetAdd k2 v => if k = k2 ∧ x = value_to_bson v then some true else none
  | .SetAdd k2 v => if k = k2 ∧ x = value_to_bson v then some true else none
  | .SetRemove k2 v => if k = k2 ∧ x = value_to_bson v then some false else none
  | _ => none

/-- How one command settles membership of `x` in the `tombstones` array of the
document at `k`; only `TwoPhaseSetRemove` writes there, at `key ++ ".ts"`. -/
def touchTombstones (k : String) (x : Bson) : CRDTCommand → Option Bool
  | .TwoPhaseSetRemove k2 v => if k = k2 ++ ".ts" ∧ x = value_to_bson v then some true else none
  | _ => none

/-- The `value` field a command writes at document `k`, if any. -/
def valueWriteOf (k : String) : CRDTCommand → Option Bson
  | .LastWriteWins k2 v _ => if k = k2 then some (value_to_bson v) else none
  | .AnyWriteWins k2 v => if k = k2 then some (value_to_bson v) else none
  | _ => none

/-- The `timestamp` field a command writes at document `k`, if any. -/
def tsWriteOf (k : String) : CRDTCommand → Option Int
  | .LastWriteWins k2 _ ts => if k = k2 then some (castToI64 ts) else none
  | _ => none

/-- The `point` field a command writes at document `k`, if any; only
`BlockFinished` writes it, at the cursor key. -/
def pointWriteOf (cursorKey k : String) : CRDTCommand → Option String
  | .BlockFinished p => if k = cursorKey then some (PointArg.render (PointArg.ofPoint p)) else none
  | _ => none

/-- The `counter` increment a command applies at document `k`. -/
def counterDeltaOf (k : String) : CRDTCommand → Int
  | .PNCounter k2 d => if k = k2 then d else 0
  | _ => 0

/-- The `scores.<m>` increment a command applies at document `k`. -/
def scoreDeltaOf (k m : String) : CRDTCommand → Int
  | .SortedSetAdd k2 m2 d => if k = k2 ∧ m = m2 then d else 0
  | .SortedSetRemove k2 m2 d => if k = k2 ∧ m = m2 then d else 0
  | _ => 0

/-- Net `PNCounter` delta a command sequence applies at key `k` (the
per-block counter delta when the sequence is one block's commands). -/
def pnDelta (k : String) (cs : List CRDTCommand) : Int :=
  sumOf (counterDeltaOf k) cs

/-- The idempotent subset of the command algebra, as flagged by the spec:
set-adds, two-phase set operations, the write-wins writes and the cursor
write. -/
def isIdempotentCmd : CRDTCommand → Bool
  | .GrowOnlySetAdd _ _ => true
  | .TwoPhaseSetAdd _ _ => true
  | .TwoPhaseSetRemove _ _ => true
  | .LastWriteWins _ _ _ => true
  | .AnyWriteWins _ _ => true
  | .BlockFinished _ => true
  | _ => false

/-! ### Per-command slot characterization -/

theorem applyCmd_values_mem (ck k : String) (x : Bson) (c : CRDTCommand) (s : MongoState) :
    x ∈ ((applyCmd ck c s) k).values ↔ pwrite (touchValues k x c) (x ∈ (s k).values) := by
  cases c <;>
    simp only [applyCmd, cmdUpdate, applyUpdate, applySpec, touchValues, pwrite] <;>
    split_ifs <;>
    simp_all [Finset.mem_insert, Finset.mem_erase]

theorem applyCmd_tombstones_mem (ck k : String) (x : Bson) (c : CRDTCommand) (s : MongoState) :
    x ∈ ((applyCmd ck c s) k).tombstones ↔ pwrite (touchTombstones k x c) (x ∈ (s k).tombstones) := by
  cases c <;>
    simp only [applyCmd, cmdUpdate, applyUpdate, applySpec, touchTombstones, pwrite] <;>
    split_ifs <;>
    simp_all [Finset.mem_insert]

theorem applyCmd_value (ck k : String) (c : CRDTCommand) (s : MongoState) :
    ((applyCmd ck c s) k).value = owrite (valueWriteOf k c) ((s k).value) := by
  cases c <;>
    simp only [applyCmd, cmdUpdate, applyUpdate, applySpec, valueWriteOf, owrite] <;>
    split_ifs <;>
    simp_all

theorem applyCmd_timestamp (ck k : String) (c : CRDTCommand) (s : MongoState) :
    ((applyCmd ck c s) k).timestamp = owrite (tsWriteOf k c) ((s k).timestamp) := by
  cases c <;>
    simp only [applyCmd, cmdUpdate, applyUpdate, applySpec, tsWriteOf, owrite] <;>
    split_ifs <;>
    simp_all

theorem applyCmd_point (ck k : String) (c : CRDTCommand) (s : MongoState) :
    ((applyCmd ck c s) k).point = owrite (pointWriteOf ck k c) ((s k).point) := by
  cases c <;>
    simp only [applyCmd, cmdUpdate, applyUpdate, applySpec, pointWriteOf, owrite] <;>
    split_ifs <;>
    simp_all

theorem applyCmd_counter (ck k : String) (c : CRDTCommand) (s : MongoState) :
    ((applyCmd ck c s) k).counter = (s k).counter + counterDeltaOf k c := by
  cases c <;>
    simp only [applyCmd, cmdUpdate, applyUpdate, applySpec, counterDeltaOf] <;>
    (try split_ifs) <;>
    simp_all

theorem applyCmd_scores (ck k m : String) (c : CRDTCommand) (s : MongoState) :
    ((applyCmd ck c s) k).scores m = (s k).scores m + scoreDeltaOf k m c := by
  cases c <;>
    simp only [applyCmd, cmdUpdate, applyUpdate, applySpec, scoreDeltaOf] <;>
    (try split_ifs) <;>
    simp_all

/-! ### Sequence-level slot characterization -/

theorem owrite_assoc (a b : Option β) (cur : Option β) :
    owrite a (owrite b cur) = owrite (owrite a b) cur := by
  cases a <;> simp [owrite]

theorem pwrite_owrite (a b : Option Bool) (cur : Prop) :
    pwrite a (pwrite b cur) ↔ pwrite (owrite a b) cur := by
  cases a <;> simp [owrite, pwrite]

theorem applyCmds_values_mem (ck k : String) (x : Bson) (cs : List CRDTCommand) :
    ∀ s : MongoState,
      (x ∈ ((applyCmds ck cs s) k).values ↔ pwrite (lastWrite (touchValues k x) cs) (x ∈ (s k).values)) := by
  induction cs with
  | nil => intro s; simp [applyCmds, lastWrite, pwrite]
  | cons c cs ih =>
    intro s
    rw [applyCmds, ih, applyCmd_values_mem ck k x c s, pwrite_owrite, lastWrite]

theorem applyCmds_tombstones_mem (ck k : String) (x : Bson) (cs : List CRDTCommand) :
    ∀ s : MongoState,
      (x ∈ ((applyCmds ck cs s) k).tombstones
        ↔ pwrite (lastWrite (touchTombstones k x) cs) (x ∈ (s k).tombstones)) := by
  induction cs with
  | nil => intro s; simp [applyCmds, lastWrite, pwrite]
  | cons c cs ih =>
    intro s
    rw [applyCmds, ih, applyCmd_tombstones_mem ck k x c s, pwrite_owrite, lastWrite]

theorem applyCmds_value (ck k : String) (cs : List CRDTCommand) :
    ∀ s : MongoState,
      ((applyCmds ck cs s) k).value = owrite (lastWrite (valueWriteOf k) cs) ((s k).value) := by
  induction cs with
  | nil => intro s; simp [applyCmds, lastWrite, owrite]
  | cons c cs ih =>
    intro s
    rw [applyCmds, ih, applyCmd_value ck k c s, owrite_assoc, lastWrite]

theorem applyCmds_timestamp (ck k : String) (cs : List CRDTCommand) :
    ∀ s : MongoState,
      ((applyCmds ck cs s) k).timestamp = owrite (lastWrite (tsWriteOf k) cs) ((s k).timestamp) := by
  induction cs with
  | nil => intro s; simp [applyCmds, lastWrite, owrite]
  | cons c cs ih =>
    intro s
    rw [applyCmds, ih, applyCmd_timestamp ck k c s, owrite_assoc, lastWrite]

theorem applyCmds_point (ck k : String) (cs : List CRDTCommand) :
    ∀ s : MongoState,
      ((applyCmds ck cs s) k).point = owrite (lastWrite (pointWriteOf ck k) cs) ((s k).point) := by
  induction cs with
  | nil => intro s; simp [applyCmds, lastWrite, owrite]
  | cons c cs ih =>
    intro s
    rw [applyCmds, ih, applyCmd_point ck k c s, owrite_assoc, lastWrite]

theorem applyCmds_counter (ck k : String) (cs : List CRDTCommand) :
    ∀ s : MongoState,
      ((applyCmds ck cs s) k).counter = (s k).counter + pnDelta k cs := by
  induction cs with
  | nil => intro s; simp [applyCmds, pnDelta, sumOf]
  | cons c cs ih =>
    intro s
    rw [applyCmds, ih, applyCmd_counter ck k c s]
    simp [pnDelta, sumOf]
    ring

theorem applyCmds_scores (ck k m : String) (cs : List CRDTCommand) :
    ∀ s : MongoState,
      ((applyCmds ck cs s) k).scores m = (s k).scores m + sumOf (scoreDeltaOf k m) cs := by
  induction cs with
  | nil => intro s; simp [applyCmds, sumOf]
  | cons c cs ih =>
    intro s
    rw [applyCmds, ih, applyCmd_scores ck k m c s]
    simp [sumOf]
    ring

theorem applyCmds_append (ck : String) (l1 l2 : List CRDTCommand) :
    ∀ s : MongoState, applyCmds ck (l1 ++ l2) s = applyCmds ck l2 (applyCmds ck l1 s) := by
  induction l1 with
  | nil => intro s; simp [applyCmds]
  | cons c l1 ih => intro s; rw [List.cons_append, applyCmds, applyCmds, ih]

theorem lastWrite_append (f : CRDTCommand → Option β) (l1 l2 : List CRDTCommand) :
    lastWrite f (l1 ++ l2) = owrite (lastWrite f l2) (lastWrite f l1) := by
  induction l1 with
  | nil => simp [lastWrite, owrite]; cases lastWrite f l2 <;> simp [owrite]
  | cons c l1 ih => rw [List.cons_append, lastWrite, ih, lastWrite, owrite_assoc]

theorem sumOf_append (g : CRDTCommand → Int) (l1 l2 : List CRDTCommand) :
    sumOf g (l1 ++ l2) = sumOf g l1 + sumOf g l2 := by
  induction l1 with
  | nil => simp [sumOf]
  | cons c l1 ih => rw [List.cons_append, sumOf, ih, sumOf]; ring

theorem owrite_idem (a : Option β) (cur : Option β) :
    owrite a (owrite a cur) = owrite a cur := by
  cases a <;> simp [owrite]

theorem pwrite_idem (a : Option Bool) (cur : Prop) :
    pwrite a (pwrite a cur) ↔ pwrite a cur := by
  cases a <;> simp [pwrite]

/-- Two documents with the same fields are equal. -/
theorem MongoDoc.ext2 {d1 d2 : MongoDoc}
    (h1 : d1.values = d2.values) (h2 : d1.tombstones = d2.tombstones)
    (h3 : d1.value = d2.value) (h4 : d1.timestamp = d2.timestamp)
    (h5 : ∀ m, d1.scores m = d2.scores m) (h6 : d1.counter = d2.counter)
    (h7 : d1.point = d2.point) : d1 = d2 := by
  cases d1; cases d2
  simp only [MongoDoc.mk.injEq]
  exact ⟨h1, h2, h3, h4, funext h5, h6, h7⟩

/-- Replaying any command sequence leaves every `values` set where the first
pass put it: the final membership of each element is decided by the last
operation touching it, which both passes share. -/
theorem applyCmds_values_twice (ck k : String) (cs : List CRDTCommand) (s : MongoState) :
    ((applyCmds ck cs (applyCmds ck cs s)) k).values = ((applyCmds ck cs s) k).values := by
  apply Finset.ext
  intro x
  rw [applyCmds_values_mem ck k x cs, applyCmds_values_mem ck k x cs, pwrite_idem]

theorem applyCmds_tombstones_twice (ck k : String) (cs : List CRDTCommand) (s : MongoState) :
    ((applyCmds ck cs (applyCmds ck cs s)) k).tombstones = ((applyCmds ck cs s) k).tombstones := by
  apply Finset.ext
  intro x
  rw [applyCmds_tombstones_mem ck k x cs, applyCmds_tombstones_mem ck k x cs, pwrite_idem]

theorem counterDeltaOf_of_idem (k : String) (c : CRDTCommand)
    (h : isIdempotentCmd c = true) : counterDeltaOf k c = 0 := by
  cases c <;> simp_all [isIdempotentCmd, counterDeltaOf]

theorem scoreDeltaOf_of_idem (k m : String) (c : CRDTCommand)
    (h : isIdempotentCmd c = true) : scoreDeltaOf k m c = 0 := by
  cases c <;> simp_all [isIdempotentCmd, scoreDeltaOf]

theorem sumOf_eq_zero (g : CRDTCommand → Int) (cs : List CRDTCommand)
    (h : ∀ c ∈ cs, g c = 0) : sumOf g cs = 0 := by
  induction cs with
  | nil => simp [sumOf]
  | cons c cs ih =>
    rw [sumOf, h c (by simp), ih (fun c2 hc2 => h c2 (by simp [hc2]))]
    ring

/-! ### Claim C1 — LastWriteWins and the stored timestamp -/

/-- A store that already holds value `"old"` with timestamp `10` at key
`"k"`, produced by the sink itself. -/
def lwwStateBefore : MongoState :=
  applyCmds "_cursor" [.LastWriteWins "k" (.string "old") 10] freshState

/-- C1 counterexample: with timestamp `10` stored at `"k"`, applying
`LastWriteWins("k", "new", 5)` — a *smaller* timestamp — still overwrites
the value, so the claim "the state at key is unchanged when ts is smaller"
is false on the sink code. -/
theorem lww_ignores_stored_timestamp :
    (lwwStateBefore "k").value = some (.str "old")
    ∧ (lwwStateBefore "k").timestamp = some 10
    ∧ ((applyCmd "_cursor" (.LastWriteWins "k" (.string "new") 5) lwwStateBefore) "k").value
        = some (.str "new")
    ∧ ((applyCmd "_cursor" (.LastWriteWins "k" (.string "new") 5) lwwStateBefore) "k").timestamp
        = some 5 := by
  refine ⟨?_, ?_, ?_, ?_⟩ <;> decide

/-- C1 amended: the sink's apply of `LastWriteWins(key, v, ts)` sets the value
at `key` to `v` and the timestamp to `ts` unconditionally — it never
consults the stored timestamp — and leaves every other key untouched. -/
theorem lww_write_unconditional (ck k : String) (v : Value) (ts : Nat) (s : MongoState) :
    ((applyCmd ck (.LastWriteWins k v ts) s) k).value = some (value_to_bson v)
    ∧ ((applyCmd ck (.LastWriteWins k v ts) s) k).timestamp = some (castToI64 ts)
    ∧ ((applyCmd ck (.LastWriteWins k v ts) s) k).values = (s k).values
    ∧ (∀ k2, k2 ≠ k → (applyCmd ck (.LastWriteWins k v ts) s) k2 = s k2) := by
  refine ⟨?_, ?_, ?_, fun k2 hk2 => ?_⟩
  · simp [applyCmd, cmdUpdate, applyUpdate, applySpec]
  · simp [applyCmd, cmdUpdate, applyUpdate, applySpec]
  · simp [applyCmd, cmdUpdate, applyUpdate, applySpec]
  · simp [applyCmd, cmdUpdate, applyUpdate, applySpec, hk2]

/-- Witness for `lww_write_unconditional` at a concrete input. -/
theorem lww_write_unconditional_witness :
    ("x" : String) ≠ "k"
    ∧ (applyCmd "_cursor" (.LastWriteWins "k" (.string "v") 5) freshState) "x" = freshState "x" :=
  ⟨by decide, (lww_write_unconditional "_cursor" "k" (.string "v") 5 freshState).2.2.2 "x" (by decide)⟩

/-! ### Claim C2 — idempotent replay and replay safety -/

/-- C2: replaying a block's commands is safe in the sink's mongo semantics:
a sequence made only of idempotent-flagged commands applied twice equals
it applied once; and for a block `body ++ [BlockFinished p]` delivered
twice to a fresh sink, the cursor document holds the point of the block,
every `values`/`tombstones` set holds exactly what one pass produces, and
every counter holds twice the per-block delta. -/
theorem mongo_sink_idempotent_replay (ck : String) (cs body : List CRDTCommand)
    (s : MongoState) (p : Point) (k : String)
    (hIdem : ∀ c ∈ cs, isIdempotentCmd c = true) :
    applyCmds ck cs (applyCmds ck cs s) = applyCmds ck cs s
    ∧ ((applyCmds ck ((body ++ [.BlockFinished p]) ++ (body ++ [.BlockFinished p])) freshState) ck).point
        = some (PointArg.render (PointArg.ofPoint p))
    ∧ (∀ k2,
        ((applyCmds ck ((body ++ [.BlockFinished p]) ++ (body ++ [.BlockFinished p])) freshState) k2).values
          = ((applyCmds ck (body ++ [.BlockFinished p]) freshState) k2).values
        ∧ ((applyCmds ck ((body ++ [.BlockFinished p]) ++ (body ++ [.BlockFinished p])) freshState) k2).tombstones
          = ((applyCmds ck (body ++ [.BlockFinished p]) freshState) k2).tombstones)
    ∧ ((applyCmds ck ((body ++ [.BlockFinished p]) ++ (body ++ [.BlockFinished p])) freshState) k).counter
        = 2 * pnDelta k (body ++ [.BlockFinished p]) := by
  refine ⟨?_, ?_, fun k2 => ⟨?_, ?_⟩, ?_⟩
  · funext k2
    refine MongoDoc.ext2 ?_ ?_ ?_ ?_ ?_ ?_ ?_
    · exact applyCmds_values_twice ck k2 cs s
    · exact applyCmds_tombstones_twice ck k2 cs s
    · rw [applyCmds_value, applyCmds_value, owrite_idem]
    · rw [applyCmds_timestamp, applyCmds_timestamp, owrite_idem]
    · intro m
      rw [applyCmds_scores, applyCmds_scores,
        sumOf_eq_zero _ _ (fun c hc => scoreDeltaOf_of_idem k2 m c (hIdem c hc))]
      ring
    · rw [applyCmds_counter, applyCmds_counter]
      unfold pnDelta
      rw [sumOf_eq_zero _ _ (fun c hc => counterDeltaOf_of_idem k2 c (hIdem c hc))]
      ring
    · rw [applyCmds_point, applyCmds_point, owrite_idem]
  · rw [applyCmds_point]
    simp [lastWrite_append, lastWrite, owrite, pointWriteOf]
  · rw [applyCmds_append, applyCmds_values_twice]
  · rw [applyCmds_append, applyCmds_tombstones_twice]
  · rw [applyCmds_counter]
    unfold pnDelta
    rw [sumOf_append]
    simp [freshState, emptyDoc]
    ring

/-- Witness for `mongo_sink_idempotent_replay` at a concrete input. -/
theorem mongo_sink_idempotent_replay_witness :
    (∀ c ∈ [CRDTCommand.GrowOnlySetAdd "g" (.string "a"),
            CRDTCommand.LastWriteWins "w" (.string "v") 3], isIdempotentCmd c = true)
    ∧ applyCmds "_cursor"
        [CRDTCommand.GrowOnlySetAdd "g" (.string "a"), CRDTCommand.LastWriteWins "w" (.string "v") 3]
        (applyCmds "_cursor"
          [CRDTCommand.GrowOnlySetAdd "g" (.string "a"), CRDTCommand.LastWriteWins "w" (.string "v") 3]
          freshState)
      = applyCmds "_cursor"
          [CRDTCommand.GrowOnlySetAdd "g" (.string "a"), CRDTCommand.LastWriteWins "w" (.string "v") 3]
          freshState
    ∧ ((applyCmds "_cursor"
          (([CRDTCommand.PNCounter "c" 5] ++ [CRDTCommand.BlockFinished ⟨1000, [171]⟩])
            ++ ([CRDTCommand.PNCounter "c" 5] ++ [CRDTCommand.BlockFinished ⟨1000, [171]⟩]))
          freshState) "c").counter
      = 2 * pnDelta "c" ([CRDTCommand.PNCounter "c" 5] ++ [CRDTCommand.BlockFinished ⟨1000, [171]⟩]) := by
  have h := mongo_sink_idempotent_replay "_cursor"
    [CRDTCommand.GrowOnlySetAdd "g" (.string "a"), CRDTCommand.LastWriteWins "w" (.string "v") 3]
    [CRDTCommand.PNCounter "c" 5] freshState ⟨1000, [171]⟩ "c" (by decide)
  exact ⟨by decide, h.1, h.2.2.2⟩

/-! ### Claim C7 — backend write before commit, cursor write last -/

/-- One observable action of the sink's `work` step, in program order:
the backend `update_one` call, the `storage_ops` metric increment, and the
two-phase input-port commit. -/
inductive SinkAction where
  | backendWrite (u : MongoUpdate)
  | metricsInc
  | commitPort
  deriving DecidableEq, Repr

/-- The ordered actions of one successful `Worker::work` step on a command:
the match arm's backend write (absent for `BlockStarting`), then
`ops_count.inc(1)`, then `input.commit()`.  A failed backend write aborts
the step before either of the trailing actions. -/
def workActions (cursorKey : String) (c : CRDTCommand) : List SinkAction :=
  match cmdUpdate cursorKey c with
  | none => [.metricsInc, .commitPort]
  | some u => [.backendWrite u, .metricsInc, .commitPort]

/-- C7: in every `work` step the backend write precedes the commit — the
action list is writes, then the metric increment, then the commit, which
comes last — and on `BlockFinished(p)` the step is exactly the cursor
upsert under the cursor key followed by the metric increment and the
commit. -/
theorem mongo_sink_commit_last (ck : String) (c : CRDTCommand) (p : Point) :
    (∃ pre, workActions ck c = pre ++ [SinkAction.metricsInc, SinkAction.commitPort]
       ∧ ∀ a ∈ pre, ∃ u, a = SinkAction.backendWrite u)
    ∧ (workActions ck c).getLast? = some SinkAction.commitPort
    ∧ workActions ck (.BlockFinished p)
        = [SinkAction.backendWrite ⟨ck, .setPoint (PointArg.render (PointArg.ofPoint p)), true⟩,
           SinkAction.metricsInc, SinkAction.commitPort] := by
  refine ⟨?_, ?_, rfl⟩
  · match h : cmdUpdate ck c with
    | none => exact ⟨[], by simp [workActions, h], by simp⟩
    | some u => exact ⟨[.backendWrite u], by simp [workActions, h], by simp⟩
  · match h : cmdUpdate ck c with
    | none => simp [workActions, h]
    | some u => simp [workActions, h]

/-! ## The chain-sync start helper (`src/sources/utils.rs`)

`define_chainsync_start!` expands to one function per transport; both
expansions are textually identical apart from the client type, so a single
embedding covers `define_chainsync_start_n2c` and `_n2n`.  The client is a
record of the chain-sync verbs; the embedding returns the helper's result
together with the ordered list of verbs invoked. -/

/-- The chain tip as `find_intersect` reports it. -/
structure Tip where
  point : Point
  blockNo : Nat
  deriving DecidableEq, Repr

/-- The upstream chain-sync session: `find_intersect` answers with the agreed
point (or none when the peer knows none of the offered points) and the tip;
errors are protocol failures (`Error::ouroboros` wraps them). -/
structure ChainSyncClient where
  findIntersect : List Point → Except String (Option Point × Tip)
  intersectOrigin : Except String Point
  intersectTip : Except String Point

/-- A chain-sync verb the helper can invoke, recorded in invocation order. -/
inductive ClientCall where
  | findIntersect (ps : List Point)
  | intersectOrigin
  | intersectTip
  | requestNext
  deriving DecidableEq, Repr

/-- Modelled from the spec: `crosscut::IntersectConfig` (not under `src/`),
the four intersect options of §4.4. -/
inductive IntersectConfig where
  | Origin
  | Tip
  | ConfigPoint (slot : Nat) (hashHex : String)
  | Fallbacks (ps : List PointArg)

/-- Modelled from the spec: `IntersectConfig::get_point` converts the
configured `(slot, hash)` into a chain point. -/
def intersectGetPoint (slot : Nat) (hashHex : String) : Point :=
  ⟨slot, (hexDecode hashHex).getD []⟩

/-- Modelled from the spec: `IntersectConfig::get_fallbacks` converts the
configured point list. -/
def intersectGetFallbacks (ps : List PointArg) : List Point :=
  ps.map (fun pa => ⟨pa.slot, (hexDecode pa.hashHex).getD []⟩)

/-- The chain-sync start helper of `sources/utils.rs`: consult the storage
cursor first; when it yields a point, intersect there and return; only
with no cursor fall through to the configured intersect option. -/
def define_chainsync_start (intersect : IntersectConfig)
    (cursorLastPoint : Except Error (Option PointArg)) (client : ChainSyncClient) :
    Except Error (Option Point) × List ClientCall :=
  match cursorLastPoint with
  | .error e => (.error e, [])
  | .ok (some x) =>
    match PointArg.tryIntoPoint x with
    | .error e => (.error e, [])
    | .ok point =>
      match client.findIntersect [point] with
      | .error e => (.error (.ouroboros e), [.findIntersect [point]])
      | .ok (pt, _) => (.ok pt, [.findIntersect [point]])
  | .ok none =>
    match intersect with
    | .Origin =>
      match client.intersectOrigin with
      | .error e => (.error (.ouroboros e), [.intersectOrigin])
      | .ok point => (.ok (some point), [.intersectOrigin])
    | .Tip =>
      match client.intersectTip with
      | .error e => (.error (.ouroboros e), [.intersectTip])
      | .ok point => (.ok (some point), [.intersectTip])
    | .ConfigPoint slot hashHex =>
      match client.findIntersect [intersectGetPoint slot hashHex] with
      | .error e => (.error (.ouroboros e), [.findIntersect [intersectGetPoint slot hashHex]])
      | .ok (pt, _) => (.ok pt, [.findIntersect [intersectGetPoint slot hashHex]])
    | .Fallbacks ps =>
      match client.findIntersect (intersectGetFallbacks ps) with
      | .error e => (.error (.ouroboros e), [.findIntersect (intersectGetFallbacks ps)])
      | .ok (pt, _) => (.ok pt, [.findIntersect (intersectGetFallbacks ps)])

/-! ### Claim C4 — a stored cursor overrides the configured intersect -/

/-- C4: when the cursor yields a point that parses, the helper calls
`find_intersect` with exactly that single point and nothing else — in
particular no `request_next` and none of the configured-intersect verbs —
its result is independent of the configured intersect option, and it
forwards `find_intersect`'s answer. -/
theorem chainsync_cursor_overrides (intersect intersect2 : IntersectConfig)
    (cursor : Except Error (Option PointArg)) (client : ChainSyncClient)
    (x : PointArg) (p : Point)
    (hc : cursor = .ok (some x)) (hp : PointArg.tryIntoPoint x = .ok p) :
    (define_chainsync_start intersect cursor client).2 = [ClientCall.findIntersect [p]]
    ∧ ClientCall.requestNext ∉ (define_chainsync_start intersect cursor client).2
    ∧ define_chainsync_start intersect cursor client
        = define_chainsync_start intersect2 cursor client
    ∧ (∀ pt t, client.findIntersect [p] = .ok (pt, t) →
        (define_chainsync_start intersect cursor client).1 = .ok pt)
    ∧ (∀ e, client.findIntersect [p] = .error e →
        (define_chainsync_start intersect cursor client).1 = .error (.ouroboros e)) := by
  subst hc
  have hred : ∀ ic : IntersectConfig,
      define_chainsync_start ic (.ok (some x)) client
        = match client.findIntersect [p] with
          | .error e => (.error (.ouroboros e), [.findIntersect [p]])
          | .ok (pt, _) => (.ok pt, [.findIntersect [p]]) := by
    intro ic
    simp only [define_chainsync_start, hp]
  refine ⟨?_, ?_, ?_, ?_, ?_⟩
  · rw [hred]
    cases hfi : client.findIntersect [p] with
    | error e => rfl
    | ok r => cases r; rfl
  · rw [hred]
    cases hfi : client.findIntersect [p] with
    | error e => simp
    | ok r => cases r; simp
  · rw [hred, hred]
  · intro pt t hfi
    rw [hred, hfi]
  · intro e hfi
    rw [hred, hfi]

/-- The concrete client of scenario S5: it agrees to intersect at the offered
point. -/
def clientAgree : ChainSyncClient :=
  { findIntersect := fun ps => .ok (ps.head?, ⟨⟨2000, [1]⟩, 7⟩),
    intersectOrigin := .ok ⟨0, []⟩,
    intersectTip := .ok ⟨2000, [1]⟩ }

/-- Witness for `chainsync_cursor_overrides`: cursor `"1000,ab"` makes the
helper issue `find_intersect([Point(1000, 0xab)])`. -/
theorem chainsync_cursor_overrides_witness :
    (Except.ok (some (⟨1000, "ab"⟩ : PointArg)) : Except Error (Option PointArg))
        = .ok (some ⟨1000, "ab"⟩)
    ∧ PointArg.tryIntoPoint ⟨1000, "ab"⟩ = .ok ⟨1000, [171]⟩
    ∧ (define_chainsync_start .Origin (.ok (some ⟨1000, "ab"⟩)) clientAgree).2
        = [ClientCall.findIntersect [⟨1000, [171]⟩]] :=
  ⟨rfl, by decide,
    (chainsync_cursor_overrides .Origin .Tip (.ok (some ⟨1000, "ab"⟩)) clientAgree
      ⟨1000, "ab"⟩ ⟨1000, [171]⟩ rfl (by decide)).1⟩

/-! ### Claim C5 — upstream rejects the stored point -/

/-- A client that knows none of the offered points: `find_intersect`
answers `Ok` with no agreed point. -/
def clientReject : ChainSyncClient :=
  { findIntersect := fun _ => .ok (none, ⟨⟨2000, [1]⟩, 7⟩),
    intersectOrigin := .ok ⟨0, []⟩,
    intersectTip := .ok ⟨2000, [1]⟩ }

/-- C5 counterexample: with a stored cursor whose point the upstream rejects
(`find_intersect` returns `Ok` with no agreed point), the helper returns
the *successful* result `Ok(None)` — it does not return an error, contrary
to the claim that it fails loudly. -/
theorem chainsync_reject_returns_ok :
    (define_chainsync_start .Origin (.ok (some ⟨1000, "ab"⟩)) clientReject).1
      = .ok none := by
  decide

/-- C5 amended: when the upstream rejects the stored point the helper
returns `Ok(None)`; it returns an error only when the `find_intersect`
call itself fails.  Failing loudly on a rejected point is left to the
caller, outside this helper. -/
theorem chainsync_reject_amended (intersect : IntersectConfig)
    (cursor : Except Error (Option PointArg)) (client : ChainSyncClient)
    (x : PointArg) (p : Point) (t : Tip)
    (hc : cursor = .ok (some x)) (hp : PointArg.tryIntoPoint x = .ok p)
    (hfi : client.findIntersect [p] = .ok (none, t)) :
    (define_chainsync_start intersect cursor client).1 = .ok none := by
  subst hc
  simp only [define_chainsync_start, hp, hfi]

/-- Witness for `chainsync_reject_amended` at the rejecting client. -/
theorem chainsync_reject_amended_witness :
    PointArg.tryIntoPoint ⟨1000, "ab"⟩ = .ok ⟨1000, [171]⟩
    ∧ clientReject.findIntersect [⟨1000, [171]⟩] = .ok (none, ⟨⟨2000, [1]⟩, 7⟩)
    ∧ (define_chainsync_start .Tip (.ok (some ⟨1000, "ab"⟩)) clientReject).1 = .ok none :=
  ⟨by decide, rfl,
    chainsync_reject_amended .Tip (.ok (some ⟨1000, "ab"⟩)) clientReject
      ⟨1000, "ab"⟩ ⟨1000, [171]⟩ ⟨⟨2000, [1]⟩, 7⟩ rfl (by decide) rfl⟩

/-! ## Reducer data model

Blocks reach reducers through the pallas traversal API; the embedding keeps
exactly the accessors the three reducers use: `tx.consumes()`,
`tx.produces()`, `tx.mints()`, `tx.encode().len()`, `output.address()`,
`address.has_script()/to_hex()/to_string()`, `output.non_ada_assets()`,
`policy.policy()/assets()`, `asset.name()/mint_coin()/to_ascii_name()`. -/

/-- An address as the reducers see it: script flag, hex form (`to_hex`) and
bech32/display form (`to_string`). -/
structure Addr where
  hasScript : Bool
  hexRepr : String
  bech32Repr : String
  deriving DecidableEq, Repr

/-- One asset inside a policy group: raw name bytes and, for mint entries,
the signed mint quantity (`mint_coin`). -/
structure Asset where
  name : List Nat
  mintCoin : Option Int
  deriving DecidableEq, Repr

/-- One policy group (`MultiEraPolicyAssets`): 28-byte policy hash and its
assets. -/
structure PolicyAssets where
  policy : List Nat
  assets : List Asset
  deriving DecidableEq, Repr

/-- A produced transaction output: fallible address resolution and the
non-ADA asset bundle. -/
structure TxOut where
  address : Except Error Addr
  assets : List PolicyAssets
  deriving DecidableEq, Repr

/-- A reference to a previous output (`OutputRef`). -/
structure OutputRef where
  txHash : List Nat
  index : Nat
  deriving DecidableEq, Repr

/-- One transaction with the accessors the reducers use. -/
structure Tx where
  consumes : List OutputRef
  produces : List TxOut
  mints : List PolicyAssets
  encodeLen : Nat
  deriving DecidableEq, Repr

/-- Modelled from the spec: `model::BlockContext` (not under `src/`) as the
reducers consume it — `ctx.find_utxo(ref).apply_policy(policy)`: an error
is the `or_panic` path, `none` a policy-skipped missing UTXO, `some` the
resolved output. -/
def BlockContext := OutputRef → Except Error (Option TxOut)

/-! ## `transaction_size_by_script` (`src/reducers/transaction_size_by_script.rs`) -/

/-- The reducer's projection choice. -/
inductive Projection where
  | Individual
  | Total
  deriving DecidableEq, Repr

/-- The reducer's address rendering; the source declares only `Hex`. -/
inductive AddrType where
  | Hex
  deriving DecidableEq, Repr

/-- The reducer's aggregation; the source declares only `Epoch`. -/
inductive AggrType where
  | Epoch
  deriving DecidableEq, Repr

/-- The reducer's configuration.  The filter predicate is modelled from the
spec (the `filter_matches!` macro and `crosscut::filters` are not under
`src/`) as an opaque predicate over the transaction. -/
structure TsbsConfig where
  keyPrefix : Option String
  filter : Option (Tx → Bool)
  aggrBy : Option AggrType
  keyAddrType : Option AddrType
  projection : Projection

/-- Modelled from the spec: `filter_matches!` — transactions not matching the
configured predicate are skipped; an absent predicate matches every
transaction. -/
def filterMatches (f : Option (Tx → Bool)) (tx : Tx) : Bool :=
  match f with
  | some p => p tx
  | none => true

/-- `Reducer::config_key`: the key layout per aggregation and prefix; with
`aggr_by = Epoch` but no prefix the epoch suffix is omitted, exactly as in
the source. -/
def config_key (cfg : TsbsConfig) (address : String) (epochNo : Nat) : String :=
  match cfg.aggrBy with
  | some .Epoch =>
    match cfg.keyPrefix with
    | some p => p ++ "." ++ address ++ "." ++ toString epochNo
    | none => "trx_size_by_script" ++ "." ++ address
  | none =>
    match cfg.keyPrefix with
    | some p => p ++ "." ++ address
    | none => "trx_size_by_script" ++ "." ++ address

/-- Address rendering per `key_addr_type`: `to_hex` when `Hex` is configured,
`to_string` otherwise. -/
def renderAddr (cfg : TsbsConfig) (a : Addr) : String :=
  match cfg.keyAddrType with
  | some .Hex => a.hexRepr
  | none => a.bech32Repr

/-- `seen.insert(address)`: set insertion into the per-transaction address
set (`HashSet<String>` in the source, kept in first-insertion order here;
only its set of elements matters downstream). -/
def insertSeen (seen : List String) (a : String) : List String :=
  if a ∈ seen then seen else seen ++ [a]

/-- `Reducer::process_inbound_txo`: resolve the consumed input through the
context, skip policy-skipped or non-script outputs, and record the
rendered script address. -/
def process_inbound_txo (cfg : TsbsConfig) (ctx : BlockContext)
    (seen : List String) (input : OutputRef) : Except Error (List String) :=
  match ctx input with
  | .error e => .error e
  | .ok none => .ok seen
  | .ok (some utxo) =>
    let isScript := match utxo.address with
      | .ok a => a.hasScript
      | .error _ => false
    if isScript then
      match utxo.address with
      | .ok a => .ok (insertSeen seen (renderAddr cfg a))
      | .error e => .error e
    else .ok seen

/-- `Reducer::process_outbound_txo`: record the rendered address of a
produced script output. -/
def process_outbound_txo (cfg : TsbsConfig) (seen : List String) (txo : TxOut) :
    Except Error (List String) :=
  let isScript := match txo.address with
    | .ok a => a.hasScript
    | .error _ => false
  if isScript then
    match txo.address with
    | .ok a => .ok (insertSeen seen (renderAddr cfg a))
    | .error e => .error e
  else .ok seen

/-- The consumed-inputs loop of `reduce_block`. -/
def foldInbound (cfg : TsbsConfig) (ctx : BlockContext) :
    List OutputRef → List String → Except Error (List String)
  | [], seen => .ok seen
  | i :: is, seen =>
    match process_inbound_txo cfg ctx seen i with
    | .error e => .error e
    | .ok s2 => foldInbound cfg ctx is s2

/-- The produced-outputs loop of `reduce_block`. -/
def foldOutbound (cfg : TsbsConfig) :
    List TxOut → List String → Except Error (List String)
  | [], seen => .ok seen
  | o :: os, seen =>
    match process_outbound_txo cfg seen o with
    | .error e => .error e
    | .ok s2 => foldOutbound cfg os s2

/-- The per-transaction address collection of `reduce_block`: a fresh set,
the consumed inputs, then the produced outputs. -/
def collectSeen (cfg : TsbsConfig) (ctx : BlockContext) (tx : Tx) :
    Except Error (List String) :=
  match foldInbound cfg ctx tx.consumes [] with
  | .error e => .error e
  | .ok s1 => foldOutbound cfg tx.produces s1

/-- The per-transaction emission loop of `reduce_block`: one command per
collected address. -/
def txCommands (cfg : TsbsConfig) (epochNo : Nat) (seen : List String) (txLen : Nat) :
    List CRDTCommand :=
  seen.map (fun addr =>
    match cfg.projection with
    | .Individual => .GrowOnlySetAdd (config_key cfg addr epochNo) (.string (toString txLen))
    | .Total => .PNCounter (config_key cfg addr epochNo) (castToI64 txLen))

/-- `Reducer::reduce_block` of `transaction_size_by_script`, returning the
emitted commands in order.  `epochNo` stands for
`block_epoch(&self.chain, block)` (in `crosscut::epochs`, outside `src/`),
which is the same for every transaction of the block.  Note the
`tx_len == 0` arm: the source runs `return Ok(())`, leaving the whole
function and dropping every remaining transaction of the block. -/
def reduce_block_tsbs (cfg : TsbsConfig) (epochNo : Nat) (ctx : BlockContext) :
    List Tx → Except Error (List CRDTCommand)
  | [] => .ok []
  | tx :: rest =>
    if filterMatches cfg.filter tx then
      match collectSeen cfg ctx tx with
      | .error e => .error e
      | .ok seen =>
        if tx.encodeLen = 0 then .ok []
        else
          match reduce_block_tsbs cfg epochNo ctx rest with
          | .error e => .error e
          | .ok cmds => .ok (txCommands cfg epochNo seen tx.encodeLen ++ cmds)
    else reduce_block_tsbs cfg epochNo ctx rest

/-! ### Claim C3 — a zero-length transaction aborts the whole block -/

/-- Scenario config: Epoch aggregation, prefix `txs`, hex addresses,
individual projection, no filter. -/
def tsbsCfg : TsbsConfig :=
  { keyPrefix := some "txs", filter := none, aggrBy := some .Epoch,
    keyAddrType := some .Hex, projection := .Individual }

/-- A context with nothing to resolve (the scenario transactions consume
nothing). -/
def tsbsCtx : BlockContext := fun _ => .ok none

/-- A produced output at a script address. -/
def scriptOut : TxOut :=
  { address := .ok ⟨true, "feedface", "addrfeedface"⟩, assets := [] }

/-- A filter-passing transaction whose encoding is empty. -/
def txZero : Tx := { consumes := [], produces := [], mints := [], encodeLen := 0 }

/-- A filter-passing transaction of encoded length 317 touching one script
address. -/
def txGood : Tx := { consumes := [], produces := [scriptOut], mints := [], encodeLen := 317 }

/-- C3 counterexample: a zero-length transaction makes `reduce_block` return
`Ok` immediately, so the later transaction of the same block — which alone
emits a command — contributes nothing, contrary to the claim that the
remaining transactions are still processed. -/
theorem tsbs_zero_len_aborts_block :
    reduce_block_tsbs tsbsCfg 42 tsbsCtx [txZero, txGood] = .ok []
    ∧ reduce_block_tsbs tsbsCfg 42 tsbsCtx [txGood]
        = .ok [.GrowOnlySetAdd "txs.feedface.42" (.string "317")] := by
  refine ⟨?_, ?_⟩ <;> decide

/-- C3 amended: when a filter-passing transaction whose address collection
succeeds has encoded length zero, `reduce_block` returns `Ok([])` for the
remainder of the block — the transaction is skipped *and* every remaining
transaction is dropped, whatever it is. -/
theorem tsbs_zero_len_stops (cfg : TsbsConfig) (epochNo : Nat) (ctx : BlockContext)
    (tx : Tx) (rest rest2 : List Tx) (seen : List String)
    (hf : filterMatches cfg.filter tx = true)
    (hs : collectSeen cfg ctx tx = .ok seen)
    (hz : tx.encodeLen = 0) :
    reduce_block_tsbs cfg epochNo ctx (tx :: rest) = .ok []
    ∧ reduce_block_tsbs cfg epochNo ctx (tx :: rest)
        = reduce_block_tsbs cfg epochNo ctx (tx :: rest2) := by
  have h1 : ∀ r, reduce_block_tsbs cfg epochNo ctx (tx :: r) = .ok [] := by
    intro r
    simp [reduce_block_tsbs, hf, hs, hz]
  exact ⟨h1 rest, by rw [h1 rest, h1 rest2]⟩

/-- Witness for `tsbs_zero_len_stops` at the scenario block. -/
theorem tsbs_zero_len_stops_witness :
    filterMatches tsbsCfg.filter txZero = true
    ∧ collectSeen tsbsCfg tsbsCtx txZero = .ok []
    ∧ txZero.encodeLen = 0
    ∧ reduce_block_tsbs tsbsCfg 42 tsbsCtx [txZero, txGood] = .ok [] :=
  ⟨by decide, by decide, by decide,
    (tsbs_zero_len_stops tsbsCfg 42 tsbsCtx txZero [txGood] [] []
      (by decide) (by decide) (by decide)).1⟩

/-! ### Claim C6 — one command per distinct script address, key layout -/

/-- The key layout exactly as the claim words it: `prefix.address.epoch`
with Epoch aggregation and a prefix, `trx_size_by_script.address` (no
epoch) with Epoch aggregation and no prefix, `prefix-or-default.address`
otherwise. -/
def claimed_key_tsbs (cfg : TsbsConfig) (address : String) (epochNo : Nat) : String :=
  match cfg.aggrBy, cfg.keyPrefix with
  | some .Epoch, some p => p ++ "." ++ address ++ "." ++ toString epochNo
  | some .Epoch, none => "trx_size_by_script." ++ address
  | none, some p => p ++ "." ++ address
  | none, none => "trx_size_by_script." ++ address

/-- The source's key layout agrees with the claim's key layout. -/
theorem config_key_eq_claimed (cfg : TsbsConfig) (address : String) (epochNo : Nat) :
    config_key cfg address epochNo = claimed_key_tsbs cfg address epochNo := by
  rcases cfg with ⟨kp, f, ab, kat, proj⟩
  rcases ab with _ | ⟨⟩ <;> rcases kp with _ | p <;> rfl

theorem insertSeen_nodup (seen : List String) (a : String) (h : seen.Nodup) :
    (insertSeen seen a).Nodup := by
  unfold insertSeen
  split_ifs with hm
  · exact h
  · simpa using List.Nodup.append h (List.nodup_singleton a) (by simpa using hm)

theorem process_inbound_nodup (cfg : TsbsConfig) (ctx : BlockContext)
    (seen s2 : List String) (i : OutputRef) (h : seen.Nodup)
    (hp : process_inbound_txo cfg ctx seen i = .ok s2) : s2.Nodup := by
  unfold process_inbound_txo at hp
  rcases hctx : ctx i with e | u <;> rw [hctx] at hp
  · cases hp
  · rcases u with _ | utxo
    · cases hp; exact h
    · dsimp at hp
      split_ifs at hp
      · rcases ha : utxo.address with e | a <;> rw [ha] at hp
        · cases hp
        · cases hp; exact insertSeen_nodup seen _ h
      · cases hp; exact h

theorem process_outbound_nodup (cfg : TsbsConfig)
    (seen s2 : List String) (o : TxOut) (h : seen.Nodup)
    (hp : process_outbound_txo cfg seen o = .ok s2) : s2.Nodup := by
  unfold process_outbound_txo at hp
  dsimp at hp
  split_ifs at hp
  · rcases ha : o.address with e | a <;> rw [ha] at hp
    · cases hp
    · cases hp; exact insertSeen_nodup seen _ h
  · cases hp; exact h

theorem foldInbound_nodup (cfg : TsbsConfig) (ctx : BlockContext) :
    ∀ (is : List OutputRef) (seen s2 : List String), seen.Nodup →
      foldInbound cfg ctx is seen = .ok s2 → s2.Nodup := by
  intro is
  induction is with
  | nil => intro seen s2 h hp; cases hp; exact h
  | cons i is ih =>
    intro seen s2 h hp
    unfold foldInbound at hp
    rcases hpi : process_inbound_txo cfg ctx seen i with e | s1 <;> rw [hpi] at hp
    · cases hp
    · exact ih s1 s2 (process_inbound_nodup cfg ctx seen s1 i h hpi) hp

theorem foldOutbound_nodup (cfg : TsbsConfig) :
    ∀ (os : List TxOut) (seen s2 : List String), seen.Nodup →
      foldOutbound cfg os seen = .ok s2 → s2.Nodup := by
  intro os
  induction os with
  | nil => intro seen s2 h hp; cases hp; exact h
  | cons o os ih =>
    intro seen s2 h hp
    unfold foldOutbound at hp
    rcases hpo : process_outbound_txo cfg seen o with e | s1 <;> rw [hpo] at hp
    · cases hp
    · exact ih s1 s2 (process_outbound_nodup cfg seen s1 o h hpo) hp

/-- The per-transaction address set holds no duplicates: a transaction counts
once per distinct address however many inputs or outputs share it. -/
theorem collectSeen_nodup (cfg : TsbsConfig) (ctx : BlockContext) (tx : Tx)
    (seen : List String) (hs : collectSeen cfg ctx tx = .ok seen) : seen.Nodup := by
  unfold collectSeen at hs
  rcases hin : foldInbound cfg ctx tx.consumes [] with e | s1 <;> rw [hin] at hs
  · cases hs
  · exact foldOutbound_nodup cfg tx.produces s1 seen
      (foldInbound_nodup cfg ctx tx.consumes [] s1 List.nodup_nil hin) hs

/-- C6: a filter-passing transaction of nonzero encoded length contributes
exactly one command per distinct collected script address — the collected
set is duplicate-free and the contribution maps it one-to-one — with the
key exactly as the claim lays it out, and the block output prepends that
contribution to the rest of the block's output. -/
theorem tsbs_one_command_per_address (cfg : TsbsConfig) (epochNo : Nat)
    (ctx : BlockContext) (tx : Tx) (rest : List Tx) (seen : List String)
    (cmds restCmds : List CRDTCommand)
    (hf : filterMatches cfg.filter tx = true)
    (hs : collectSeen cfg ctx tx = .ok seen)
    (hlen : tx.encodeLen ≠ 0)
    (hrest : reduce_block_tsbs cfg epochNo ctx rest = .ok restCmds)
    (hall : reduce_block_tsbs cfg epochNo ctx (tx :: rest) = .ok cmds) :
    cmds = txCommands cfg epochNo seen tx.encodeLen ++ restCmds
    ∧ seen.Nodup
    ∧ txCommands cfg epochNo seen tx.encodeLen
        = seen.map (fun a =>
            match cfg.projection with
            | .Individual =>
              .GrowOnlySetAdd (claimed_key_tsbs cfg a epochNo) (.string (toString tx.encodeLen))
            | .Total =>
              .PNCounter (claimed_key_tsbs cfg a epochNo) (castToI64 tx.encodeLen)) := by
  refine ⟨?_, collectSeen_nodup cfg ctx tx seen hs, ?_⟩
  · have h2 : reduce_block_tsbs cfg epochNo ctx (tx :: rest)
        = .ok (txCommands cfg epochNo seen tx.encodeLen ++ restCmds) := by
      simp [reduce_block_tsbs, hf, hs, hlen, hrest]
    rw [hall] at h2
    exact Except.ok.inj h2
  · unfold txCommands
    apply List.map_congr_left
    intro a _
    cases cfg.projection <;> rw [config_key_eq_claimed]

/-- Witness for `tsbs_one_command_per_address` at the scenario block. -/
theorem tsbs_one_command_per_address_witness :
    filterMatches tsbsCfg.filter txGood = true
    ∧ collectSeen tsbsCfg tsbsCtx txGood = .ok ["feedface"]
    ∧ txGood.encodeLen ≠ 0
    ∧ reduce_block_tsbs tsbsCfg 42 tsbsCtx [txGood]
        = .ok [.GrowOnlySetAdd "txs.feedface.42" (.string "317")]
    ∧ ["feedface"].Nodup :=
  ⟨by decide, by decide, by decide, by decide,
    (tsbs_one_command_per_address tsbsCfg 42 tsbsCtx txGood [] ["feedface"]
      [.GrowOnlySetAdd "txs.feedface.42" (.string "317")] []
      (by decide) (by decide) (by decide) (by decide) (by decide)).2.1⟩

/-! ## `supply_by_asset` (`src/reducers/supply_by_asset.rs`) -/

/-- The reducer state after `plugin()`: the optional key prefix from the
config and the optional decoded policy whitelist (`policy_ids`, built by
`Hash::<28>::from_str` over `policy_ids_hex`; invalid hex panics at
construction and never reaches `reduce_block`). -/
structure SbaReducer where
  keyPrefix : Option String
  policyIds : Option (List (List Nat))

/-- `Reducer::is_policy_id_accepted`: whitelist membership, everything
accepted when no whitelist is configured. -/
def is_policy_id_accepted (r : SbaReducer) (policyId : List Nat) : Bool :=
  match r.policyIds with
  | some pids => pids.contains policyId
  | none => true

/-- `Reducer::process_asset`: skip non-whitelisted policies, else emit one
`PNCounter` on `prefix.policyhex ++ namehex` with the given quantity. -/
def process_asset (r : SbaReducer) (policy assetName : List Nat) (qty : Int) :
    List CRDTCommand :=
  if !is_policy_id_accepted r policy then []
  else
    let assetId := hexEncode policy ++ hexEncode assetName
    let key := match r.keyPrefix with
      | some p => p ++ "." ++ assetId
      | none => "supply_by_asset" ++ "." ++ assetId
    [.PNCounter key qty]

/-- `Reducer::reduce_block` of `supply_by_asset`: every mint asset of every
mint entry of every transaction, with `mint_coin().unwrap_or_default()`
as the quantity. -/
def reduce_block_sba (r : SbaReducer) (txs : List Tx) : List CRDTCommand :=
  txs.flatMap (fun tx =>
    tx.mints.flatMap (fun mint =>
      mint.assets.flatMap (fun a =>
        process_asset r mint.policy a.name (a.mintCoin.getD 0))))

/-! ### Claim C8 — one counter per whitelisted mint asset -/

/-- All `(policy, asset)` mint entries of a block, in traversal order. -/
def allMintEntries (txs : List Tx) : List (List Nat × Asset) :=
  txs.flatMap (fun tx => tx.mints.flatMap (fun m => m.assets.map (fun a => (m.policy, a))))

/-- The key exactly as the claim words it: the prefix (default
`supply_by_asset`), a dot, the policy hex, then the asset-name hex. -/
def claimed_key_sba (r : SbaReducer) (policy assetName : List Nat) : String :=
  (r.keyPrefix.getD "supply_by_asset") ++ "." ++ hexEncode policy ++ hexEncode assetName

theorem process_asset_key (r : SbaReducer) (policy assetName : List Nat) (qty : Int)
    (h : is_policy_id_accepted r policy = true) :
    process_asset r policy assetName qty
      = [.PNCounter (claimed_key_sba r policy assetName) qty] := by
  unfold process_asset claimed_key_sba
  rw [h]
  rcases hk : r.keyPrefix with _ | p <;>
    simp [hk, String.append_assoc]

theorem sba_assets_bind (r : SbaReducer) (pol : List Nat) (assets : List Asset) :
    assets.flatMap (fun a => process_asset r pol a.name (a.mintCoin.getD 0))
      = ((assets.map (fun a => (pol, a))).filter
            (fun e => is_policy_id_accepted r e.1)).map
          (fun e => .PNCounter (claimed_key_sba r e.1 e.2.name) (e.2.mintCoin.getD 0)) := by
  induction assets with
  | nil => rfl
  | cons a as ih =>
    rcases h : is_policy_id_accepted r pol with _ | _
    · have hz : process_asset r pol a.name (a.mintCoin.getD 0) = [] := by
        unfold process_asset
        rw [h]
        rfl
      simp [List.flatMap_cons, hz, ih, h]
    · rw [List.flatMap_cons, process_asset_key r pol a.name _ h, ih]
      simp [h]

theorem sba_mints_bind (r : SbaReducer) (mints : List PolicyAssets) :
    mints.flatMap (fun mint =>
        mint.assets.flatMap (fun a => process_asset r mint.policy a.name (a.mintCoin.getD 0)))
      = ((mints.flatMap (fun m => m.assets.map (fun a => (m.policy, a)))).filter
            (fun e => is_policy_id_accepted r e.1)).map
          (fun e => .PNCounter (claimed_key_sba r e.1 e.2.name) (e.2.mintCoin.getD 0)) := by
  induction mints with
  | nil => rfl
  | cons m ms ih =>
    rw [List.flatMap_cons, List.flatMap_cons, sba_assets_bind, ih, List.filter_append,
      List.map_append]

/-- C8: the block output of `supply_by_asset` is exactly one `PNCounter` per
mint-entry asset whose policy passes the whitelist — key
`prefix.policyhex ++ namehex` with default prefix `supply_by_asset`, delta
the signed mint quantity verbatim — in traversal order; a missing
whitelist accepts every policy, and a non-whitelisted asset emits
nothing. -/
theorem sba_one_counter_per_asset (r : SbaReducer) (policy assetName : List Nat)
    (qty : Int) (txs : List Tx)
    (hacc : is_policy_id_accepted r policy = true) :
    process_asset r policy assetName qty
        = [.PNCounter (claimed_key_sba r policy assetName) qty]
    ∧ (∀ pol2, is_policy_id_accepted r pol2 = false →
        process_asset r pol2 assetName qty = [])
    ∧ (r.policyIds = none → ∀ pol2, is_policy_id_accepted r pol2 = true)
    ∧ reduce_block_sba r txs
        = ((allMintEntries txs).filter (fun e => is_policy_id_accepted r e.1)).map
            (fun e => .PNCounter (claimed_key_sba r e.1 e.2.name) (e.2.mintCoin.getD 0)) := by
  refine ⟨process_asset_key r policy assetName qty hacc, ?_, ?_, ?_⟩
  · intro pol2 h
    unfold process_asset
    rw [h]
    rfl
  · intro hnone pol2
    unfold is_policy_id_accepted
    rw [hnone]
  · unfold reduce_block_sba allMintEntries
    induction txs with
    | nil => rfl
    | cons tx ts ih =>
      rw [List.flatMap_cons, List.flatMap_cons, sba_mints_bind, ih, List.filter_append,
        List.map_append]

/-- The scenario S2 policy: 28 bytes `0xbb`. -/
def bbPolicy : List Nat := List.replicate 28 187

/-- Witness for `sba_one_counter_per_asset`: a burn of 5 units of asset
`0x01` under the whitelisted policy yields one `PNCounter` of `-5` on
`supply_by_asset.bb…bb01`. -/
theorem sba_one_counter_per_asset_witness :
    is_policy_id_accepted ⟨none, some [bbPolicy]⟩ bbPolicy = true
    ∧ process_asset ⟨none, some [bbPolicy]⟩ bbPolicy [1] (-5)
        = [.PNCounter (claimed_key_sba ⟨none, some [bbPolicy]⟩ bbPolicy [1]) (-5)]
    ∧ claimed_key_sba ⟨none, some [bbPolicy]⟩ bbPolicy [1]
        = "supply_by_asset.bbbbbbbbbbbbbbbbbbbbbbbbbbbbbbbbbbbbbbbbbbbbbbbbbbbbbbbb01" :=
  ⟨by decide,
    (sba_one_counter_per_asset ⟨none, some [bbPolicy]⟩ bbPolicy [1] (-5) [] (by decide)).1,
    by decide⟩

/-! ## `address_by_asset` (`src/reducers/address_by_asset.rs`) -/

/-- The reducer's configuration; `filter` is declared but unused by the
source, `convert_to_ascii` defaults to `false` at `plugin()`. -/
structure AbaConfig where
  keyPrefix : Option String
  filter : Option (List String)
  policyIdHex : String
  convertToAscii : Option Bool
  deriving DecidableEq, Repr

/-- Modelled from the spec: pallas `MultiEraAsset::to_ascii_name` — the ASCII
form when the asset name is valid ASCII, `none` otherwise. -/
def to_ascii_name (name : List Nat) : Option String :=
  if name.all (fun b => b < 128) then some (String.mk (name.map Char.ofNat)) else none

/-- `Reducer::to_string_output`: the rendered asset name when the policy
matches the configured `policy_id_hex` (the policy hash prints as
lowercase hex); `none` otherwise.  With `convert_to_ascii` the name comes
from `to_ascii_name` — there is no hex fallback in that branch. -/
def to_string_output (cfg : AbaConfig) (convertToAscii : Bool)
    (policy : PolicyAssets) (asset : Asset) : Option String :=
  let policyId := hexEncode policy.policy
  if policyId = cfg.policyIdHex then
    match convertToAscii with
    | true => to_ascii_name asset.name
    | false => some (hexEncode asset.name)
  else none

/-- The `asset_names` collection of `process_txo`: render every asset of
every policy group and drop the `None`s (`flat_map` + `flatten`). -/
def asset_names (cfg : AbaConfig) (convertToAscii : Bool) (txo : TxOut) : List String :=
  (txo.assets.flatMap (fun pa =>
    pa.assets.map (fun a => to_string_output cfg convertToAscii pa a))).filterMap id

/-- Modelled from the spec: `model::CRDTCommand::any_write_wins` (in
`model.rs`, not under `src/`) — §4.2 key convention `prefix.key`, with the
reducer's stable default prefix when none is configured. -/
def any_write_wins (pfx : Option String) (key : String) (v : String) : CRDTCommand :=
  .AnyWriteWins ((pfx.getD "address_by_asset") ++ "." ++ key) (.string v)

/-- `Reducer::process_txo`: collect the matching asset names; with none,
return `Ok` at once; otherwise resolve the address (`or_panic` on
failure) and emit one `AnyWriteWins` per collected name. -/
def process_txo (cfg : AbaConfig) (txo : TxOut) : Except Error (List CRDTCommand) :=
  let names := asset_names cfg (cfg.convertToAscii.getD false) txo
  if names.isEmpty then .ok []
  else
    match txo.address with
    | .error e => .error e
    | .ok addr => .ok (names.map (fun n => any_write_wins cfg.keyPrefix n addr.bech32Repr))

/-- The produced-outputs loop of `reduce_block` in `address_by_asset`. -/
def process_txos (cfg : AbaConfig) : List TxOut → Except Error (List CRDTCommand)
  | [] => .ok []
  | txo :: txos =>
    match process_txo cfg txo with
    | .error e => .error e
    | .ok cmds =>
      match process_txos cfg txos with
      | .error e => .error e
      | .ok more => .ok (cmds ++ more)

/-- `Reducer::reduce_block` of `address_by_asset`: every produced output of
every transaction, in order. -/
def reduce_block_aba (cfg : AbaConfig) : List Tx → Except Error (List CRDTCommand)
  | [] => .ok []
  | tx :: rest =>
    match process_txos cfg tx.produces with
    | .error e => .error e
    | .ok cmds =>
      match reduce_block_aba cfg rest with
      | .error e => .error e
      | .ok more => .ok (cmds ++ more)

/-! ### Claim C9 — matching assets, name rendering, address failures -/

/-- The scenario S1 policy: 28 bytes `0xaa`. -/
def aaPolicy : List Nat := List.replicate 28 170

/-- Scenario config: `policy_id_hex = "aa"*28`, `convert_to_ascii = true`,
prefix `abx`. -/
def abaCfg : AbaConfig :=
  { keyPrefix := some "abx", filter := none,
    policyIdHex := "aaaaaaaaaaaaaaaaaaaaaaaaaaaaaaaaaaaaaaaaaaaaaaaaaaaaaaaa",
    convertToAscii := some true }

/-- An output at a resolvable address bearing one matching asset whose name
byte `0xff` is not valid ASCII. -/
def txoNonAscii : TxOut :=
  { address := .ok ⟨false, "deadbeef", "addr1xyz"⟩,
    assets := [⟨aaPolicy, [⟨[255], none⟩]⟩] }

/-- C9 counterexample: with `convert_to_ascii = true` and a matching asset
whose name is not valid ASCII, the reducer emits nothing at all — the
asset is dropped, not rendered as lowercase hex, so the claimed command
`AnyWriteWins("abx.ff", …)` never appears. -/
theorem aba_non_ascii_dropped :
    process_txo abaCfg txoNonAscii = .ok []
    ∧ (Except.ok ([] : List CRDTCommand) : Except Error (List CRDTCommand))
        ≠ .ok [.AnyWriteWins "abx.ff" (.string "addr1xyz")] := by
  refine ⟨?_, ?_⟩ <;> decide

/-- C9 amended: one `AnyWriteWins(prefix + "." + name, address)` per rendered
matching asset name, where a matching name renders as ASCII when
`convert_to_ascii` is set and the name is valid ASCII, as lowercase hex
when `convert_to_ascii` is unset, and is *dropped* when `convert_to_ascii`
is set but the name is not valid ASCII; no surviving name means no
command and no address evaluation, and a surviving name with an
unresolvable address fails loudly. -/
theorem aba_process_txo_cases (cfg : AbaConfig) (p : String) (txo : TxOut)
    (addr : Addr) (e : Error)
    (hp : cfg.keyPrefix = some p) :
    (asset_names cfg (cfg.convertToAscii.getD false) txo = [] →
      process_txo cfg txo = .ok [])
    ∧ (asset_names cfg (cfg.convertToAscii.getD false) txo ≠ [] →
        txo.address = .error e → process_txo cfg txo = .error e)
    ∧ (asset_names cfg (cfg.convertToAscii.getD false) txo ≠ [] →
        txo.address = .ok addr →
        process_txo cfg txo
          = .ok ((asset_names cfg (cfg.convertToAscii.getD false) txo).map
              (fun n => .AnyWriteWins (p ++ "." ++ n) (.string addr.bech32Repr))))
    ∧ (∀ pa a, to_string_output cfg true pa a
        = if hexEncode pa.policy = cfg.policyIdHex then to_ascii_name a.name else none)
    ∧ (∀ pa a, to_string_output cfg false pa a
        = if hexEncode pa.policy = cfg.policyIdHex then some (hexEncode a.name) else none) := by
  refine ⟨?_, ?_, ?_, fun pa a => rfl, fun pa a => rfl⟩
  · intro h
    simp [process_txo, h]
  · intro h he
    simp [process_txo, List.isEmpty_iff, h, he]
  · intro h ha
    simp [process_txo, List.isEmpty_iff, h, ha, any_write_wins, hp]

/-- An output bearing one matching, ASCII-named asset (`"NFT"`). -/
def txoNFT : TxOut :=
  { address := .ok ⟨false, "deadbeef", "addr1xyz"⟩,
    assets := [⟨aaPolicy, [⟨[78, 70, 84], none⟩]⟩] }

/-- Witness for `aba_process_txo_cases`: scenario S1 — asset `NFT` under the
matching policy yields exactly `AnyWriteWins("abx.NFT", "addr1xyz")`. -/
theorem aba_process_txo_cases_witness :
    abaCfg.keyPrefix = some "abx"
    ∧ asset_names abaCfg (abaCfg.convertToAscii.getD false) txoNFT = ["NFT"]
    ∧ txoNFT.address = .ok ⟨false, "deadbeef", "addr1xyz"⟩
    ∧ process_txo abaCfg txoNFT = .ok [.AnyWriteWins "abx.NFT" (.string "addr1xyz")] := by
  refine ⟨rfl, by decide, rfl, ?_⟩
  have h := (aba_process_txo_cases abaCfg "abx" txoNFT ⟨false, "deadbeef", "addr1xyz"⟩
    (.message "unused") rfl).2.2.1 (by decide) rfl
  rw [h]
  decide

/-! ### Claim C10 — outputs without matching assets never resolve the address -/

/-- C10: when an output bears no asset surviving the policy match and name
rendering, `process_txo` returns `Ok` with no commands, whatever the
output's address field holds — in particular an unresolvable address on
such an output causes no failure. -/
theorem aba_no_asset_skips_address (cfg : AbaConfig) (txo : TxOut)
    (h : asset_names cfg (cfg.convertToAscii.getD false) txo = []) :
    process_txo cfg txo = .ok [] := by
  simp [process_txo, h]

/-- An output with an unresolvable address and one asset under a foreign
policy. -/
def txoBadAddr : TxOut :=
  { address := .error (.message "unparseable address"),
    assets := [⟨bbPolicy, [⟨[1], none⟩]⟩] }

/-- Witness for `aba_no_asset_skips_address`: the foreign-policy output with
a broken address still yields `Ok([])`. -/
theorem aba_no_asset_skips_address_witness :
    asset_names abaCfg (abaCfg.convertToAscii.getD false) txoBadAddr = []
    ∧ txoBadAddr.address = .error (.message "unparseable address")
    ∧ process_txo abaCfg txoBadAddr = .ok [] :=
  ⟨by decide, rfl, aba_no_asset_skips_address abaCfg txoBadAddr (by decide)⟩

end Scrolls
